import Mathlib

/-!
Verification development for a smart-contract fuzzing pipeline consisting of
two Python modules:

* `interface.py` — the symbolic/concrete transaction bridge: translation of
  fuzzer-format transaction records (nested, tagged argument value trees) to
  abstract transactions, and back-annotation of solver models into new
  records (`update_argument`, `update_tx`, `load_tx`, `store_new_tx_sequence`,
  `get_available_filename`, `extract_cases_from_json_output`).
* `generator.py` — dataflow-guided corpus sequence synthesis
  (`CorpusGenerator._init`, `_step`, `step`).

The development is a shallow embedding: Python dict/list data is modelled by
inductive types, stateful code by explicit state passing, machine integers by
`Nat`/`Int` with explicit reductions where overflow matters, and fallible code
by `Option`/`Except`.  Definitions are translated from the source; the few
helpers living outside the embedded modules (in `common/util.py`, the Python
standard library, or external engines) are modelled from the specification and
say so in their doc comments.
-/

/-! ## String helpers

Python string operations used by the source, modelled over `List Char`
(`String.data`). -/

/-- Boolean test that `needle` occurs as a contiguous run inside `hay`;
this is Python's `needle in hay` on strings. -/
def has_substr (needle : List Char) : List Char → Bool
  | [] => needle.isEmpty
  | c :: t => needle.isPrefixOf (c :: t) || has_substr needle t

/-- Python's substring test `needle in hay` for `String`s. -/
def py_in (needle hay : String) : Bool :=
  has_substr needle.data hay.data

/-- Decimal rendering of a `Nat`, Python's `str(n)` for a non-negative int. -/
def py_str_nat (n : Nat) : String := Nat.repr n

/-- Decimal rendering of an `Int`, Python's `str(v)` (e.g. `-56`). -/
def py_str_int (v : Int) : String := Int.repr v

/-- Python's `hex(n)` for a non-negative int: `0x` followed by lowercase
hexadecimal digits.  Solver models assign unsigned machine-integer values, so
only the non-negative case arises in the embedded code. -/
def py_hex (n : Nat) : String :=
  "0x" ++ (Nat.toDigits 16 n).asString

/-- Python's format expression `f"0x{n:040x}"` used for sender addresses:
lowercase hex, left-padded with zeros to at least 40 digits. -/
def py_hex_pad40 (n : Nat) : String :=
  let s := (Nat.toDigits 16 n).asString
  "0x" ++ (String.mk (List.replicate (40 - s.length) '0')) ++ s

/-- Value of one hexadecimal digit character, or `none`. -/
def hex_digit_val (c : Char) : Option Nat :=
  if '0' ≤ c ∧ c ≤ '9' then some (c.toNat - 48)
  else if 'a' ≤ c ∧ c ≤ 'f' then some (c.toNat - 87)
  else if 'A' ≤ c ∧ c ≤ 'F' then some (c.toNat - 55)
  else none

/-- Accumulating loop of `py_int_hex`. -/
def py_int_hex_go (acc : Nat) : List Char → Option Nat
  | [] => some acc
  | c :: t => (hex_digit_val c).bind fun d => py_int_hex_go (acc * 16 + d) t

/-- Modelled from the spec: Python's `int(s, 16)` (standard library, not under
`src/`), parsing a hexadecimal string with an optional `0x`/`0X` prefix into a
non-negative integer; malformed input raises, modelled as `none`.  The corpus
format stores all numeric fields as hex strings of this shape. -/
def py_int_hex (s : String) : Option Nat :=
  let cs := match s.data with
    | '0' :: 'x' :: t => t
    | '0' :: 'X' :: t => t
    | t => t
  match cs with
  | [] => none
  | cs => py_int_hex_go 0 cs

/-! ## Solver models (`maat.VarContext`)

A solved model maps symbolic-variable names to concrete unsigned
machine-integer values.  The external `VarContext` type is modelled as an
association list; `contains`, `get` and `contained_vars` are the three
operations the source uses.  Every `get` in the source is guarded by a
`contains` check, so the default value of `vc_get` is never observed. -/

/-- A solver model: an association of variable names with unsigned values. -/
abbrev VarContext := List (String × Nat)

/-- The `new_model.contains(name)` test. -/
def vc_contains (m : VarContext) (name : String) : Bool :=
  m.any fun p => p.1 == name

/-- The `new_model.get(name)` lookup (always guarded by `vc_contains`). -/
def vc_get (m : VarContext) (name : String) : Nat :=
  match m.find? (fun p => p.1 == name) with
  | some p => p.2
  | none => 0

/-- The `new_model.contained_vars()` listing of variable names. -/
def contained_vars (m : VarContext) : List String :=
  m.map fun p => p.1

/-! ## The ABI argument value tree

One serialized Echidna call argument: a tagged node whose `tag` determines the
shape of `contents` (`interface.py`, argument dicts).  Byte-like contents are
held in the Echidna-encoded string form in the source and are decoded with
`echidna_parse_bytes` / re-encoded with `echidna_encode_bytes`
(`common/util.py`, not under `src/`); the spec treats these as inverse
decode/encode steps, so the embedding stores the decoded byte list directly
and models the codec pair as the identity on it.  The static element-type
descriptors inside `AbiArray`/`AbiArrayDynamic` contents are omitted: the
update operations never read or write them. -/

mutual
inductive Arg where
  | AbiUInt (bits : Nat) (value : String)
  | AbiInt (bits : Nat) (value : String)
  | AbiBool (value : Bool)
  | AbiAddress (value : String)
  | AbiBytes (len : Nat) (value : List Nat)
  | AbiBytesDynamic (value : List Nat)
  | AbiString (value : List Nat)
  | AbiTuple (els : ArgList)
  | AbiArray (len : Nat) (els : ArgList)
  | AbiArrayDynamic (els : ArgList)
inductive ArgList where
  | nil
  | cons (head : Arg) (tail : ArgList)
end

deriving instance DecidableEq for Arg, ArgList

/-- The `tag` field of a serialized argument node. -/
def tagOf : Arg → String
  | .AbiUInt .. => "AbiUInt"
  | .AbiInt .. => "AbiInt"
  | .AbiBool .. => "AbiBool"
  | .AbiAddress .. => "AbiAddress"
  | .AbiBytes .. => "AbiBytes"
  | .AbiBytesDynamic .. => "AbiBytesDynamic"
  | .AbiString .. => "AbiString"
  | .AbiTuple .. => "AbiTuple"
  | .AbiArray .. => "AbiArray"
  | .AbiArrayDynamic .. => "AbiArrayDynamic"

/-- `is_array_like_type` from `update_argument`: true when encoding the type
produces multiple variables `arg_0 ... arg_N`; implemented in the source as a
substring test of the tag against four markers. -/
def is_array_like_type (argType : String) : Bool :=
  ["Tuple", "Array", "Bytes", "String"].any fun x => py_in x argType

/-- Modelled from the spec: `twos_complement_convert(v, bits)` from
`common/util.py` (not under `src/`); the spec states that the stored value is
the model value reinterpreted as a two's-complement integer of the declared
bit width (bit width 8 sends 200 to -56). -/
def twos_complement_convert (v : Nat) (bits : Nat) : Int :=
  let r := v % 2 ^ bits
  if 2 ^ (bits - 1) ≤ r then (r : Int) - 2 ^ bits else (r : Int)

/-- Modelled from the spec: `int_to_bool` from `common/util.py` (not under
`src/`): a solved integer is written back into an `AbiBool` node as a Python
boolean, false exactly on zero. -/
def int_to_bool (v : Nat) : Bool := v != 0

/-- Derived symbolic-variable name with a numeric suffix: the source's
f-string `arg_name + "_" + str(i)` used for tuple/array elements and for
individual bytes. -/
def sub_arg_name (arg_name : String) (i : Nat) : String :=
  arg_name ++ "_" ++ Nat.repr i

/-- `_update_bytes_like_argument(arg_name, length, val, new_model)`: for every
byte position `i` below `length` whose variable `arg_name_i` is in the model,
overwrite `val[i]` with the model value masked to its low 8 bits (Python's
`v & 0xFF` on an unsigned value is `v % 256`). -/
def update_bytes_like_argument (arg_name : String) (length : Nat)
    (val : List Nat) (new_model : VarContext) : List Nat :=
  (List.range length).foldl
    (fun v i =>
      if vc_contains new_model (sub_arg_name arg_name i) then
        v.set i (vc_get new_model (sub_arg_name arg_name i) % 256)
      else v)
    val

mutual
/-- `update_argument(arg, arg_name, new_model)` from `interface.py`.  The
source mutates the argument dict in place; since the final state of the node
is fully determined by its inputs, the embedding returns that final state.
The two leading guards are the source's early returns: array-like tags return
untouched unless some model variable name contains `arg_name` as a substring,
scalar tags unless the model contains `arg_name` itself. -/
def update_argument (arg : Arg) (arg_name : String) (new_model : VarContext) :
    Arg :=
  if is_array_like_type (tagOf arg)
      && (contained_vars new_model).all (fun v => ! py_in arg_name v) then
    arg
  else if ! is_array_like_type (tagOf arg)
      && ! vc_contains new_model arg_name then
    arg
  else
    match arg with
    | .AbiUInt bits _ =>
        .AbiUInt bits (py_str_nat (vc_get new_model arg_name))
    | .AbiInt bits _ =>
        .AbiInt bits
          (py_str_int (twos_complement_convert (vc_get new_model arg_name) bits))
    | .AbiBool _ =>
        .AbiBool (int_to_bool (vc_get new_model arg_name))
    | .AbiAddress _ =>
        .AbiAddress (py_hex (vc_get new_model arg_name))
    | .AbiBytes len v =>
        .AbiBytes len (update_bytes_like_argument arg_name len v new_model)
    | .AbiBytesDynamic v =>
        .AbiBytesDynamic
          (update_bytes_like_argument arg_name v.length v new_model)
    | .AbiString v =>
        .AbiString (update_bytes_like_argument arg_name v.length v new_model)
    | .AbiTuple els =>
        .AbiTuple (update_arg_elements els arg_name new_model 0)
    | .AbiArray len els =>
        .AbiArray len (update_arg_elements els arg_name new_model 0)
    | .AbiArrayDynamic els =>
        .AbiArrayDynamic (update_arg_elements els arg_name new_model 0)

/-- The `for i, el in enumerate(...): update_argument(el, f-string arg_name_i,
new_model)` loops in the tuple/array branches of `update_argument`, with `i`
the position of the first element of the remaining list. -/
def update_arg_elements (els : ArgList) (arg_name : String)
    (new_model : VarContext) (i : Nat) : ArgList :=
  match els with
  | .nil => .nil
  | .cons a t =>
      .cons (update_argument a (sub_arg_name arg_name i) new_model)
        (update_arg_elements t arg_name new_model (i + 1))
end

/-! ## Concrete transaction records

One fuzzer-format transaction (`interface.py`): the `_call` payload is either
the `NoCall` marker or a `SolCall` with a function name and argument list; the
remaining fields are the hex-string fields of the corpus JSON.  `delay0` and
`delay1` are the two cells of the `_delay` array (timestamp delta, then
block-number delta); `gas` and `gasprice` are the keys spelled with a trailing
prime in the corpus JSON. -/

inductive Call where
  | NoCall
  | SolCall (func : String) (args : ArgList)

deriving instance DecidableEq for Call

structure Tx where
  call : Call
  src : String
  dst : String
  value : String
  gas : String
  gasprice : String
  delay0 : String
  delay1 : String

deriving instance DecidableEq for Tx

/-- The `for i, arg in enumerate(args): update_argument(arg, f-string
tx_name_argi, new_model)` loop of `update_tx`, with `i` the position of the
first element of the remaining list. -/
def update_tx_args (tx_name : String) (new_model : VarContext) (i : Nat) :
    ArgList → ArgList
  | .nil => .nil
  | .cons a t =>
      .cons (update_argument a (tx_name ++ "_arg" ++ Nat.repr i) new_model)
        (update_tx_args tx_name new_model (i + 1) t)

/-- `update_tx(tx, new_model, tx_name)` from `interface.py`, as the record
returned to the caller.  The source takes `tx.copy()` (a shallow dict copy),
updates every call argument, then conditionally overwrites the delay cells,
the sender (zero-padded to 40 hex digits) and the value.  A `NoCall` record
has no argument list under `contents`, so the unconditional
`call["contents"][1]` indexing raises; this is modelled as `Except.error`. -/
def update_tx (tx : Tx) (new_model : VarContext) (tx_name : String) :
    Except String Tx :=
  match tx.call with
  | .NoCall => .error "no contents in NoCall transaction"
  | .SolCall f args =>
    let new_args := update_tx_args tx_name new_model 0 args
    let d1 :=
      if vc_contains new_model (tx_name ++ "_block_num_inc") then
        py_hex (vc_get new_model (tx_name ++ "_block_num_inc"))
      else tx.delay1
    let d0 :=
      if vc_contains new_model (tx_name ++ "_block_timestamp_inc") then
        py_hex (vc_get new_model (tx_name ++ "_block_timestamp_inc"))
      else tx.delay0
    let s :=
      if vc_contains new_model (tx_name ++ "_sender") then
        py_hex_pad40 (vc_get new_model (tx_name ++ "_sender"))
      else tx.src
    let v :=
      if vc_contains new_model (tx_name ++ "_value") then
        py_hex (vc_get new_model (tx_name ++ "_value"))
      else tx.value
    .ok { tx with call := .SolCall f new_args,
                  delay0 := d0, delay1 := d1, src := s, value := v }

/-- State of the CALLER'S original record after `update_tx(tx, ...)` returns,
read off from the source's aliasing: `tx.copy()` is a shallow dict copy, so
the copy shares the nested argument dicts and the `_delay` list with the
original.  `update_argument` mutates the shared argument dicts in place (its
docstring says so) and `tx["_delay"][i] = ...` assigns into the shared list,
so those updates are visible through the original; `tx["_src"] = ...` and
`tx["_value"] = ...` rebind keys of the copy only, so the original keeps its
own sender and value strings.  On a `NoCall` record the exception fires before
any mutation, leaving the original intact. -/
def update_tx_original_after (tx : Tx) (new_model : VarContext)
    (tx_name : String) : Tx :=
  match tx.call with
  | .NoCall => tx
  | .SolCall f args =>
    let new_args := update_tx_args tx_name new_model 0 args
    let d1 :=
      if vc_contains new_model (tx_name ++ "_block_num_inc") then
        py_hex (vc_get new_model (tx_name ++ "_block_num_inc"))
      else tx.delay1
    let d0 :=
      if vc_contains new_model (tx_name ++ "_block_timestamp_inc") then
        py_hex (vc_get new_model (tx_name ++ "_block_timestamp_inc"))
      else tx.delay0
    { tx with call := .SolCall f new_args, delay0 := d0, delay1 := d1 }

/-! ## Loading transactions (`load_tx`) and storing sequences -/

mutual
/-- Recursive check that translating the argument values of a call cannot
raise: `translate_argument_value` parses `AbiAddress` contents with
`int(contents, 16)` and otherwise only recurses; all other supported tags
translate without failure (byte-like contents are already decoded in the
embedding). -/
def translate_value_ok : Arg → Bool
  | .AbiAddress s => (py_int_hex s).isSome
  | .AbiTuple els => translate_values_ok els
  | .AbiArray _ els => translate_values_ok els
  | .AbiArrayDynamic els => translate_values_ok els
  | _ => true
def translate_values_ok : ArgList → Bool
  | .nil => true
  | .cons a t => translate_value_ok a && translate_values_ok t
end

/-- Modelled from the spec: the external `AbstractTx` record built by
`load_tx` (`common/world.py` and the maat engine are not under `src/`).  It
keeps what the embedding needs: the optional call payload (absent exactly for
`NoCall` records), the concrete block-number/timestamp delta seeds, the
sender seed, and the value seed (present only when the concrete value is
non-zero, since zero-value calls are never made symbolic). -/
structure AbstractTx where
  call : Option (String × ArgList)
  block_num_inc : Nat
  block_timestamp_inc : Nat
  sender : Option Nat
  value : Option Nat

deriving instance DecidableEq for AbstractTx

deriving instance DecidableEq for Except

/-- `load_tx(tx, tx_name)` from `interface.py`: parses the delay cells, then
returns early with an empty call payload on a `NoCall` marker; otherwise
translates the call (which can only fail on a malformed address constant),
parses sender, value, gas fields and recipient, and makes the value symbolic
only when non-zero.  Exceptions (malformed hex) are modelled as `none`. -/
def load_tx (tx : Tx) : Option AbstractTx :=
  (py_int_hex tx.delay1).bind fun bni =>
  (py_int_hex tx.delay0).bind fun bti =>
  match tx.call with
  | .NoCall => some ⟨none, bni, bti, none, none⟩
  | .SolCall f args =>
    if translate_values_ok args then
      (py_int_hex tx.src).bind fun snd =>
      (py_int_hex tx.value).bind fun v =>
      (py_int_hex tx.gas).bind fun _ =>
      (py_int_hex tx.gasprice).bind fun _ =>
      (py_int_hex tx.dst).bind fun _ =>
      some ⟨some (f, args), bni, bti, some snd,
            if v = 0 then none else some v⟩
    else none

/-- The `for i, tx in enumerate(data): update_tx(tx, new_model, tx_name=f-string
txi)` loop of `store_new_tx_sequence`. -/
def store_new_txs_go (new_model : VarContext) (i : Nat) :
    List Tx → Except String (List Tx)
  | [] => .ok []
  | t :: ts =>
    match update_tx t new_model ("tx" ++ Nat.repr i) with
    | .error e => .error e
    | .ok u =>
      match store_new_txs_go new_model (i + 1) ts with
      | .error e => .error e
      | .ok us => .ok (u :: us)

/-- `store_new_tx_sequence(original_file, new_model)` from `interface.py`,
restricted to its data transformation: the original file's parsed record list
is updated transaction by transaction with positional names `tx0, tx1, ...`.
(The surrounding file reads/writes and the fresh-filename allocation are I/O;
the allocator is embedded separately as `get_available_filename`.) -/
def store_new_tx_sequence (data : List Tx) (new_model : VarContext) :
    Except String (List Tx) :=
  store_new_txs_go new_model 0 data

/-! ## Fresh output filenames (`get_available_filename`) -/

/-- Candidate filename of counter value `num`: the source's f-string
`prefix + "_" + str(num) + suffix`. -/
def avail_name (pre suf : String) (num : Nat) : String :=
  pre ++ "_" ++ Nat.repr num ++ suf

/-- The `while os.path.exists(...) and num < num_max: num += 1` loop of
`get_available_filename`, with the filesystem modelled by the predicate
`file_exists` and `fuel = num_max - num` the remaining iterations. -/
def avail_loop (file_exists : String → Bool) (pre suf : String) :
    Nat → Nat → Nat
  | num, 0 => num
  | num, fuel + 1 =>
    if file_exists (avail_name pre suf num) then
      avail_loop file_exists pre suf (num + 1) fuel
    else num

/-- `get_available_filename(prefix, suffix)` from `interface.py`: scan
counters from 0, stop at the first for which the file does not exist, and
raise a `GenericException` when the bound `num_max = 100000` is reached. -/
def get_available_filename (file_exists : String → Bool) (pre suf : String) :
    Except String String :=
  let num := avail_loop file_exists pre suf 0 100000
  if 100000 ≤ num then .error "Can't find available filename, very odd"
  else .ok (avail_name pre suf num)

/-! ## Corpus generator (`generator.py`)

Dataflow nodes are identified with natural numbers; a `DataflowGraph` carries
its node list and the parent set of each node (the functions whose prior
execution can change this function's outcome).  The graph is supplied by the
external analysis backend and consumed read-only.  Python's `set` values are
modelled as duplicate-free lists (`List.dedup` of the collected elements);
Python iterates a set in an unspecified order, the embedding in the order the
elements were first collected, and the verified properties are independent of
that order. -/

structure DataflowGraph where
  nodes : List Nat
  parents : Nat → List Nat

/-- The `set().union(*[n.parents for n in tx_seq])` expression of
`CorpusGenerator._step`: the set of all transactions that can impact some
node of the sequence. -/
def impacts_seq (g : DataflowGraph) (tx_seq : List Nat) : List Nat :=
  (tx_seq.foldl (fun acc n => acc ++ g.parents n) []).dedup

/-- Body of `CorpusGenerator._step`: for every current sequence, prepend each
impacting transaction, producing one new sequence per distinct parent. -/
def df_step (g : DataflowGraph) : List (List Nat) → List (List Nat)
  | [] => []
  | tx_seq :: rest =>
      ((impacts_seq g tx_seq).map fun prev => prev :: tx_seq)
        ++ df_step g rest

/-- Generator state: the dataflow graph plus the active sequence set (the
`func_template_mapping` cache of the source is never touched by `_init`,
`_step` or `step` and is omitted). -/
structure CorpusGenerator where
  dataflow_graph : DataflowGraph
  current_tx_sequences : List (List Nat)

/-- `CorpusGenerator.__init__` followed by `_init`: one sequence of length 1
per node of the dataflow graph. -/
def mkCorpusGenerator (g : DataflowGraph) : CorpusGenerator :=
  ⟨g, g.nodes.map fun n => [n]⟩

/-- `CorpusGenerator._step`: replace the active set by its one-round
successor; mutation of `self.current_tx_sequences` is modelled by returning
the new state. -/
def CorpusGenerator.step_once (cg : CorpusGenerator) : CorpusGenerator :=
  ⟨cg.dataflow_graph, df_step cg.dataflow_graph cg.current_tx_sequences⟩

/-- `CorpusGenerator.step(n)`: run `_step` n times. -/
def CorpusGenerator.step (cg : CorpusGenerator) : Nat → CorpusGenerator
  | 0 => cg
  | n + 1 => CorpusGenerator.step cg.step_once n

/-- `CorpusGenerator.current_seq_len`: length of the first live sequence, 0
when the active set is empty. -/
def CorpusGenerator.current_seq_len (cg : CorpusGenerator) : Nat :=
  match cg.current_tx_sequences with
  | [] => 0
  | s :: _ => s.length

/-! ## Echidna JSON report parsing (`extract_cases_from_json_output`)

The report is parsed with Python's `json.loads` (standard library, not under
`src/`), modelled from the spec as a standard JSON parser over a JSON value
tree; parse failures (including the `\u` escape, which the embedding does not
support) are `none`.  Numbers are kept as raw token strings: the embedded
extraction never computes with them. -/

inductive Json where
  | null
  | bool (b : Bool)
  | num (raw : String)
  | str (s : String)
  | arr (els : List Json)
  | obj (fields : List (String × Json))

/-- JSON whitespace skipping. -/
def json_ws : List Char → List Char :=
  List.dropWhile fun c => c = ' ' || c = '\t' || c = '\n' || c = '\r'

/-- Body of a JSON string literal after the opening quote; returns the
decoded characters and the input after the closing quote. -/
def json_str_body : List Char → Option (List Char × List Char)
  | [] => none
  | '"' :: rest => some ([], rest)
  | '\\' :: e :: rest =>
    match (match e with
           | '"' => some '"'
           | '\\' => some '\\'
           | '/' => some '/'
           | 'n' => some '\n'
           | 't' => some '\t'
           | 'r' => some '\r'
           | 'b' => some (Char.ofNat 8)
           | 'f' => some (Char.ofNat 12)
           | _ => none) with
    | none => none
    | some c =>
      match json_str_body rest with
      | none => none
      | some (acc, rem) => some (c :: acc, rem)
  | c :: rest =>
    match json_str_body rest with
    | none => none
    | some (acc, rem) => some (c :: acc, rem)

/-- Characters that may make up a JSON number token. -/
def json_num_char (c : Char) : Bool :=
  c = '-' || c = '+' || c = '.' || c = 'e' || c = 'E' || (c.isDigit)

mutual
/-- One JSON value, by recursion on explicit fuel (each recursive call
consumes at least one input character, so fuel of twice the input length
suffices). -/
def json_val : Nat → List Char → Option (Json × List Char)
  | 0, _ => none
  | fuel + 1, cs =>
    match json_ws cs with
    | 'n' :: 'u' :: 'l' :: 'l' :: rest => some (.null, rest)
    | 't' :: 'r' :: 'u' :: 'e' :: rest => some (.bool true, rest)
    | 'f' :: 'a' :: 'l' :: 's' :: 'e' :: rest => some (.bool false, rest)
    | '"' :: rest =>
        (json_str_body rest).map fun p => (.str (String.mk p.1), p.2)
    | '[' :: rest =>
        (json_arr_els fuel true rest).map fun p => (.arr p.1, p.2)
    | '{' :: rest =>
        (json_obj_fields fuel true rest).map fun p => (.obj p.1, p.2)
    | c :: rest =>
        if c = '-' || c.isDigit then
          let tok := c :: rest.takeWhile json_num_char
          some (.num (String.mk tok), rest.dropWhile json_num_char)
        else none
    | [] => none

/-- Elements of a JSON array after `[` (or after a separating comma when
`first` is false); a closing bracket is accepted immediately only at the
first position. -/
def json_arr_els : Nat → Bool → List Char → Option (List Json × List Char)
  | 0, _, _ => none
  | fuel + 1, first, cs =>
    match json_ws cs, first with
    | ']' :: rest, true => some ([], rest)
    | _, _ =>
      (json_val fuel cs).bind fun (v, cs') =>
      match json_ws cs' with
      | ',' :: rest =>
          (json_arr_els fuel false rest).map fun p => (v :: p.1, p.2)
      | ']' :: rest => some ([v], rest)
      | _ => none

/-- Members of a JSON object after the opening brace (or after a separating
comma when `first` is false). -/
def json_obj_fields : Nat → Bool → List Char →
    Option (List (String × Json) × List Char)
  | 0, _, _ => none
  | fuel + 1, first, cs =>
    match json_ws cs, first with
    | '}' :: rest, true => some ([], rest)
    | _, _ =>
      match json_ws cs with
      | '"' :: rest =>
        (json_str_body rest).bind fun (k, cs') =>
        match json_ws cs' with
        | ':' :: cs'' =>
          (json_val fuel cs'').bind fun (v, cs3) =>
          match json_ws cs3 with
          | ',' :: rest' =>
              (json_obj_fields fuel false rest').map fun p =>
                ((String.mk k, v) :: p.1, p.2)
          | '}' :: rest' => some ([(String.mk k, v)], rest')
          | _ => none
        | _ => none
      | _ => none
end

/-- `json.loads` on a character list: parse one value and require that only
whitespace remains. -/
def json_loads_list (cs : List Char) : Option Json :=
  (json_val (2 * cs.length + 2) cs).bind fun p =>
    if (json_ws p.2).isEmpty then some p.1 else none

/-- `json.loads` on a string. -/
def json_loads (s : String) : Option Json :=
  json_loads_list s.data

/-- Lookup of a key in a parsed JSON object: Python dicts built by
`json.loads` keep the last binding of a duplicated key. -/
def json_get (fields : List (String × Json)) (k : String) : Option Json :=
  fields.foldl (fun acc p => if p.1 == k then some p.2 else acc) none

/-- One transaction of a solved test: the f-string
`function(arg,arg,...)` built from `tx["function"]` and the comma-join of
`tx["arguments"]`; the report format carries these as strings, and a
non-string or missing field is a raised exception (`none`). -/
def extract_case_tx (j : Json) : Option String :=
  match j with
  | .obj fields =>
    match json_get fields "function", json_get fields "arguments" with
    | some (.str fn), some (.arr args) =>
      (args.mapM fun a =>
          match a with
          | Json.str s => some s
          | _ => none).map
        fun ss => fn ++ "(" ++ String.intercalate "," ss ++ ")"
    | _, _ => none
  | _ => none

/-- One entry of the `tests` list: tests whose `status` is not the string
`"solved"` are skipped (`some none`); a solved test contributes the list of
its rendered transactions; a missing `status`/`transactions` key or a
non-object test is a raised exception (`none`). -/
def extract_case_test (j : Json) : Option (Option (List String)) :=
  match j with
  | .obj fields =>
    match json_get fields "status" with
    | none => none
    | some st =>
      if (match st with | Json.str s => s == "solved" | _ => false) then
        match json_get fields "transactions" with
        | some (.arr txs) => (txs.mapM extract_case_tx).map fun cs => some cs
        | _ => none
      else some none
  | _ => none

/-- Case extraction from a parsed report value.  The source's
`if "tests" not in data: return []` runs Python's `in` on whatever
`json.loads` returned: on a dict it is a key test, on a list a membership
test (and a hit means the subsequent `data["tests"]` indexing raises), on a
string a substring test (likewise raising on a hit), and on any other value
it raises `TypeError`. -/
def cases_of_report (j : Json) : Option (List (List String)) :=
  match j with
  | .obj fields =>
    match json_get fields "tests" with
    | none => some []
    | some (.arr tests) =>
        (tests.mapM extract_case_test).map fun cs => cs.filterMap id
    | some _ => none
  | .arr els =>
      if els.any fun e =>
          (match e with | Json.str s => s == "tests" | _ => false) then
        none
      else some []
  | .str s => if py_in "tests" s then none else some []
  | _ => none

/-- The leading-diagnostic-line stripping of
`extract_cases_from_json_output`: only when the output starts with
`"Loaded total of"` is the first line removed (`output.split("\n", 1)[1]`,
which raises when there is no newline to split at). -/
def strip_loaded_line (cs : List Char) : Option (List Char) :=
  if "Loaded total of".data.isPrefixOf cs then
    match cs.dropWhile (fun c => c ≠ '\n') with
    | [] => none
    | _ :: rest => some rest
  else some cs

/-- `extract_cases_from_json_output(output)` over a character list. -/
def extract_cases_list (cs : List Char) : Option (List (List String)) :=
  (strip_loaded_line cs).bind fun out =>
    (json_loads_list out).bind cases_of_report

/-- `extract_cases_from_json_output(output)` from `interface.py`: strip the
`Loaded total of` diagnostic line if present, parse the JSON report, and
collect one rendered call list per solved test.  Raised exceptions are
`none`. -/
def extract_cases_from_json_output (output : String) :
    Option (List (List String)) :=
  extract_cases_list output.data

/-! ## Infrastructure lemmas -/

theorem str_data_append (a b : String) : (a ++ b).data = a.data ++ b.data :=
  rfl

theorem isPrefixOf_self_append (l t : List Char) :
    l.isPrefixOf (l ++ t) = true := by
  induction l with
  | nil => simp [List.isPrefixOf]
  | cons c cs ih => simp [List.isPrefixOf, ih]

theorem isPrefixOf_refl_list (l : List Char) : l.isPrefixOf l = true := by
  have h := isPrefixOf_self_append l []
  rwa [List.append_nil] at h

theorem isPrefixOf_of_append (a x v : List Char)
    (h : (a ++ x).isPrefixOf v = true) : a.isPrefixOf v = true := by
  induction a generalizing v with
  | nil => simp [List.isPrefixOf]
  | cons c cs ih =>
    cases v with
    | nil => simp [List.isPrefixOf] at h
    | cons d ds =>
      simp only [List.cons_append, List.isPrefixOf, Bool.and_eq_true] at h ⊢
      exact ⟨h.1, ih ds h.2⟩

theorem isPrefixOf_append_right (a b c : List Char)
    (h : a.isPrefixOf b = true) : a.isPrefixOf (b ++ c) = true := by
  induction a generalizing b with
  | nil => simp [List.isPrefixOf]
  | cons x xs ih =>
    cases b with
    | nil => simp [List.isPrefixOf] at h
    | cons d ds =>
      simp only [List.cons_append, List.isPrefixOf, Bool.and_eq_true] at h ⊢
      exact ⟨h.1, ih ds h.2⟩

theorem has_substr_of_isPrefixOf (needle hay : List Char)
    (h : needle.isPrefixOf hay = true) : has_substr needle hay = true := by
  cases hay with
  | nil =>
    cases needle with
    | nil => rfl
    | cons c cs => simp [List.isPrefixOf] at h
  | cons c cs => simp [has_substr, h]

theorem sub_arg_name_data (an : String) (i : Nat) :
    (sub_arg_name an i).data = an.data ++ ('_' :: (Nat.repr i).data) := by
  show ((an ++ "_") ++ Nat.repr i).data = _
  rw [str_data_append, str_data_append, List.append_assoc]
  rfl

theorem mem_contained_vars_of_contains (m : VarContext) (x : String)
    (h : vc_contains m x = true) : x ∈ contained_vars m := by
  rcases List.any_eq_true.mp h with ⟨p, hp, he⟩
  exact List.mem_map.mpr ⟨p, hp, (eq_of_beq he).symm ▸ rfl⟩

theorem not_contains_of_no_pfx (m : VarContext) (an : String)
    (h : ∀ v ∈ contained_vars m, an.data.isPrefixOf v.data = false) :
    vc_contains m an = false := by
  cases hc : vc_contains m an with
  | false => rfl
  | true =>
    have h1 := h an (mem_contained_vars_of_contains m an hc)
    rw [isPrefixOf_refl_list] at h1
    exact absurd h1 (by simp)

theorem no_pfx_sub (m : VarContext) (an : String) (i : Nat)
    (h : ∀ v ∈ contained_vars m, an.data.isPrefixOf v.data = false) :
    ∀ v ∈ contained_vars m,
      (sub_arg_name an i).data.isPrefixOf v.data = false := by
  intro v hv
  cases hc : (sub_arg_name an i).data.isPrefixOf v.data with
  | false => rfl
  | true =>
    have h2 := isPrefixOf_of_append an.data ('_' :: (Nat.repr i).data) v.data
      (by rw [← sub_arg_name_data]; exact hc)
    rw [h v hv] at h2
    exact absurd h2 (by simp)

theorem not_contains_sub_of_no_pfx (m : VarContext) (an : String) (i : Nat)
    (h : ∀ v ∈ contained_vars m, an.data.isPrefixOf v.data = false) :
    vc_contains m (sub_arg_name an i) = false :=
  not_contains_of_no_pfx m (sub_arg_name an i) (no_pfx_sub m an i h)

theorem bytes_foldl_id (an : String) (m : VarContext) (l : List Nat)
    (acc : List Nat)
    (h : ∀ i ∈ l, vc_contains m (sub_arg_name an i) = false) :
    l.foldl
      (fun v i =>
        if vc_contains m (sub_arg_name an i) then
          v.set i (vc_get m (sub_arg_name an i) % 256)
        else v)
      acc = acc := by
  induction l generalizing acc with
  | nil => rfl
  | cons x xs ih =>
    simp only [List.foldl, h x (List.mem_cons_self x xs), if_neg]
    exact ih acc fun i hi => h i (List.mem_cons_of_mem x hi)

theorem update_bytes_unchanged (an : String) (m : VarContext) (len : Nat)
    (v : List Nat)
    (h : ∀ i, vc_contains m (sub_arg_name an i) = false) :
    update_bytes_like_argument an len v m = v :=
  bytes_foldl_id an m (List.range len) v fun i _ => h i

mutual
theorem update_argument_no_pfx (a : Arg) (an : String) (m : VarContext)
    (h : ∀ v ∈ contained_vars m, an.data.isPrefixOf v.data = false) :
    update_argument a an m = a := by
  have hc := not_contains_of_no_pfx m an h
  cases a with
  | AbiUInt bits v =>
    have harr : is_array_like_type "AbiUInt" = false := by decide
    simp [update_argument, tagOf, harr, hc]
  | AbiInt bits v =>
    have harr : is_array_like_type "AbiInt" = false := by decide
    simp [update_argument, tagOf, harr, hc]
  | AbiBool v =>
    have harr : is_array_like_type "AbiBool" = false := by decide
    simp [update_argument, tagOf, harr, hc]
  | AbiAddress v =>
    have harr : is_array_like_type "AbiAddress" = false := by decide
    simp [update_argument, tagOf, harr, hc]
  | AbiBytes len v =>
    have harr : is_array_like_type "AbiBytes" = true := by decide
    cases hall : (contained_vars m).all fun x => ! py_in an x with
    | true => simp [update_argument, tagOf, harr, hall]
    | false =>
      have hb := update_bytes_unchanged an m len v
        (fun i => not_contains_sub_of_no_pfx m an i h)
      simp [update_argument, tagOf, harr, hall, hb]
  | AbiBytesDynamic v =>
    have harr : is_array_like_type "AbiBytesDynamic" = true := by decide
    cases hall : (contained_vars m).all fun x => ! py_in an x with
    | true => simp [update_argument, tagOf, harr, hall]
    | false =>
      have hb := update_bytes_unchanged an m v.length v
        (fun i => not_contains_sub_of_no_pfx m an i h)
      simp [update_argument, tagOf, harr, hall, hb]
  | AbiString v =>
    have harr : is_array_like_type "AbiString" = true := by decide
    cases hall : (contained_vars m).all fun x => ! py_in an x with
    | true => simp [update_argument, tagOf, harr, hall]
    | false =>
      have hb := update_bytes_unchanged an m v.length v
        (fun i => not_contains_sub_of_no_pfx m an i h)
      simp [update_argument, tagOf, harr, hall, hb]
  | AbiTuple els =>
    have harr : is_array_like_type "AbiTuple" = true := by decide
    cases hall : (contained_vars m).all fun x => ! py_in an x with
    | true => simp [update_argument, tagOf, harr, hall]
    | false =>
      have ht := update_arg_elements_no_pfx els an m 0 h
      simp [update_argument, tagOf, harr, hall, ht]
  | AbiArray len els =>
    have harr : is_array_like_type "AbiArray" = true := by decide
    cases hall : (contained_vars m).all fun x => ! py_in an x with
    | true => simp [update_argument, tagOf, harr, hall]
    | false =>
      have ht := update_arg_elements_no_pfx els an m 0 h
      simp [update_argument, tagOf, harr, hall, ht]
  | AbiArrayDynamic els =>
    have harr : is_array_like_type "AbiArrayDynamic" = true := by decide
    cases hall : (contained_vars m).all fun x => ! py_in an x with
    | true => simp [update_argument, tagOf, harr, hall]
    | false =>
      have ht := update_arg_elements_no_pfx els an m 0 h
      simp [update_argument, tagOf, harr, hall, ht]

theorem update_arg_elements_no_pfx (l : ArgList) (an : String)
    (m : VarContext) (i : Nat)
    (h : ∀ v ∈ contained_vars m, an.data.isPrefixOf v.data = false) :
    update_arg_elements l an m i = l := by
  cases l with
  | nil => rfl
  | cons a t =>
    have h1 := update_argument_no_pfx a (sub_arg_name an i) m
      (no_pfx_sub m an i h)
    have h2 := update_arg_elements_no_pfx t an m (i + 1) h
    simp [update_arg_elements, h1, h2]
end

theorem update_argument_empty_model (a : Arg) (an : String) :
    update_argument a an [] = a :=
  update_argument_no_pfx a an []
    (by intro v hv; simp [contained_vars] at hv)

theorem update_tx_args_empty_model (tn : String) :
    ∀ (i : Nat) (l : ArgList), update_tx_args tn [] i l = l
  | _, .nil => rfl
  | i, .cons a t => by
    simp [update_tx_args, update_argument_empty_model,
      update_tx_args_empty_model tn (i + 1) t]

theorem update_bytes_set_single (an : String) (m : VarContext) (k : Nat)
    (v : List Nat) (hc : vc_contains m (sub_arg_name an k) = true) :
    ∀ (len : Nat), k < len →
      (∀ i, i < len → i ≠ k → vc_contains m (sub_arg_name an i) = false) →
      update_bytes_like_argument an len v m
        = v.set k (vc_get m (sub_arg_name an k) % 256)
  | 0, hk, _ => absurd hk (by omega)
  | n + 1, hk, hother => by
    unfold update_bytes_like_argument
    rw [List.range_succ, List.foldl_append]
    by_cases hkn : k = n
    · subst hkn
      rw [bytes_foldl_id an m (List.range k) v
        (fun i hi => hother i (by have := List.mem_range.mp hi; omega)
          (by have := List.mem_range.mp hi; omega))]
      simp [List.foldl, hc]
    · have hrec := update_bytes_set_single an m k v hc n (by omega)
        (fun i hi hik => hother i (by omega) hik)
      unfold update_bytes_like_argument at hrec
      rw [hrec]
      simp [List.foldl, hother n (by omega) (fun h => hkn h.symm)]

/-! ## Claim theorems -/

/-- C3: for every argument value node with an array-like tag (tuple, array,
bytes, string) and every model, if no variable name in the model has the
argument's variable name as a prefix then `update_argument` leaves the node
untouched; the update is applied only when some model entry's name is
prefixed by the variable name.  (The source's early-return guard tests
substring containment rather than prefixhood, but when the guard falls
through every write is still keyed by an exact derived name, all of which
extend the variable name, so the node value is unchanged either way.) -/
theorem C3_array_like_untouched_without_pfx_entry (a : Arg) (an : String)
    (m : VarContext)
    (harr : is_array_like_type (tagOf a) = true)
    (h : ∀ v ∈ contained_vars m, an.data.isPrefixOf v.data = false) :
    update_argument a an m = a :=
  update_argument_no_pfx a an m h

/-- C3 witness: a dynamic-bytes node named `x` against a model whose only
variable `zx_0` contains `x` as a substring but not as a prefix (so the
early-return guard falls through) is still returned unchanged. -/
theorem C3_witness :
    update_argument (.AbiBytesDynamic [1, 2]) "x" [("zx_0", 5)]
      = .AbiBytesDynamic [1, 2] :=
  C3_array_like_untouched_without_pfx_entry (.AbiBytesDynamic [1, 2]) "x"
    [("zx_0", 5)] (by decide) (by decide)

/-- C4 (amended): for every transaction record whose call payload is a
`SolCall`, `update_tx` with the empty model returns a record structurally
deep-equal to the original.  (The original claim quantifies over every
record; a `NoCall` record raises instead, see the counterexample.) -/
theorem C4_update_tx_empty_model_noop (tx : Tx) (f : String) (args : ArgList)
    (h : tx.call = .SolCall f args) (tn : String) :
    update_tx tx [] tn = .ok tx := by
  obtain ⟨c, s, d, v, g, gp, d0, d1⟩ := tx
  simp only [Tx.mk.injEq] at h ⊢
  subst h
  simp [update_tx, vc_contains, update_tx_args_empty_model]

/-- C4 counterexample: a record carrying the `NoCall` marker makes
`update_tx` raise even for the empty model, so the claim's quantification
over every concrete transaction record fails. -/
theorem C4_counterexample :
    update_tx ⟨Call.NoCall, "0x1", "0x2", "0x0", "0x1", "0x1", "0x0", "0xff"⟩
      [] "tx0" = .error "no contents in NoCall transaction" := by
  decide

/-- C4 witness: the empty model is a no-op on a concrete one-argument
`SolCall` record. -/
theorem C4_witness :
    update_tx ⟨Call.SolCall "f" (.cons (.AbiUInt 8 "5") .nil),
        "0x1", "0x2", "0x0", "0x1", "0x1", "0x0", "0xff"⟩ [] "tx0"
      = .ok ⟨Call.SolCall "f" (.cons (.AbiUInt 8 "5") .nil),
        "0x1", "0x2", "0x0", "0x1", "0x1", "0x0", "0xff"⟩ :=
  C4_update_tx_empty_model_noop _ "f" (.cons (.AbiUInt 8 "5") .nil) rfl "tx0"

/-- C9: updating a signed-integer argument (tag `AbiInt`) whose variable is
in the model stores the decimal rendering of the model value reinterpreted as
a two's-complement integer of the type's declared bit width (the witness
instantiates bit width 8 and model value 200, stored as -56). -/
theorem C9_signed_int_twos_complement (bits : Nat) (s an : String)
    (m : VarContext) (hc : vc_contains m an = true) :
    update_argument (.AbiInt bits s) an m
      = .AbiInt bits
          (py_str_int (twos_complement_convert (vc_get m an) bits)) := by
  have harr : is_array_like_type "AbiInt" = false := by decide
  simp [update_argument, tagOf, harr, hc]

/-- C9 witness: bit width 8, unsigned model value 200, stored value -56. -/
theorem C9_witness :
    update_argument (.AbiInt 8 "0") "x" [("x", 200)] = .AbiInt 8 "-56" := by
  have h := C9_signed_int_twos_complement 8 "0" "x" [("x", 200)] (by decide)
  rw [h]; decide

/-- C8 (amended): for a dynamic-bytes argument whose model assigns byte index
`k` (for `k` a valid position) and no other byte position of the argument,
the updated byte sequence equals the original with position `k` replaced by
the model value masked to its low 8 bits — so it differs from the original at
most at position `k`, and exactly there whenever the masked value differs
from the original byte.  (The original claim's "differs in exactly position
k" fails when the masked value coincides with the original byte, see the
counterexample.) -/
theorem C8_dynamic_bytes_single_byte (v : List Nat) (an : String)
    (m : VarContext) (k x : Nat)
    (hk : k < v.length)
    (hc : vc_contains m (sub_arg_name an k) = true)
    (hx : vc_get m (sub_arg_name an k) = x)
    (hother : ∀ i, i < v.length → i ≠ k →
      vc_contains m (sub_arg_name an i) = false) :
    update_argument (.AbiBytesDynamic v) an m
      = .AbiBytesDynamic (v.set k (x % 256)) := by
  have harr : is_array_like_type "AbiBytesDynamic" = true := by decide
  have hall : (contained_vars m).all (fun x' => ! py_in an x') = false := by
    cases h' : (contained_vars m).all (fun x' => ! py_in an x') with
    | false => rfl
    | true =>
      exfalso
      have h1 := List.all_eq_true.mp h' (sub_arg_name an k)
        (mem_contained_vars_of_contains m (sub_arg_name an k) hc)
      have h2 : py_in an (sub_arg_name an k) = true := by
        unfold py_in
        rw [sub_arg_name_data]
        exact has_substr_of_isPrefixOf _ _ (isPrefixOf_self_append _ _)
      rw [h2] at h1
      exact absurd h1 (by simp)
  have hb := update_bytes_set_single an m k v hc v.length hk hother
  simp [update_argument, tagOf, harr, hall, hb, hx]

/-- C8 counterexample: length 1, model assigning byte 0 the value 5 whose low
8 bits equal the original byte; the result equals the original, so the byte
sequences differ at no position, refuting "differ in exactly position k". -/
theorem C8_counterexample :
    update_argument (.AbiBytesDynamic [5]) "a" [("a_0", 5)]
      = .AbiBytesDynamic [5] := by
  decide

/-- C8 witness: bytes `[1,2,3]`, model assigning byte 1 the value 300; the
result replaces position 1 with `300 % 256 = 44` and nothing else. -/
theorem C8_witness :
    update_argument (.AbiBytesDynamic [1, 2, 3]) "a" [("a_1", 300)]
      = .AbiBytesDynamic [1, 44, 3] := by
  have h := C8_dynamic_bytes_single_byte [1, 2, 3] "a" [("a_1", 300)] 1 300
    (by decide) (by decide) (by decide) (by decide)
  rw [h]; decide

/-- C1 counterexample: the claim that `update_tx` leaves the caller's
original record unchanged fails at a concrete input: with a one-argument
`SolCall` record and a model assigning `tx0_arg0`, the caller's record after
the call has argument value "7" in place of "5" — `update_argument` mutates
the argument dicts shared through the shallow `tx.copy()`. -/
theorem C1_counterexample :
    ¬ (update_tx_original_after
        ⟨Call.SolCall "f" (.cons (.AbiUInt 8 "5") .nil),
          "0x1", "0x2", "0x0", "0x1", "0x1", "0x0", "0xff"⟩
        [("tx0_arg0", 7)] "tx0"
      = ⟨Call.SolCall "f" (.cons (.AbiUInt 8 "5") .nil),
          "0x1", "0x2", "0x0", "0x1", "0x1", "0x0", "0xff"⟩) := by
  decide

/-- C1 (amended): `update_tx` returns a fresh top-level record, and the
caller's original keeps its own top-level `_src` and `_value` bindings (those
are rebound on the copy only); but the nested argument value trees and the
`_delay` array are shared with the copy and are mutated in place, so after a
successful update the original record agrees with the returned record on its
call arguments and delay cells. -/
theorem C1_update_tx_shares_nested_state (tx : Tx) (m : VarContext)
    (tn : String) (utx : Tx) (h : update_tx tx m tn = .ok utx) :
    update_tx_original_after tx m tn
      = { utx with src := tx.src, value := tx.value } := by
  obtain ⟨c, s, d, v, g, gp, d0, d1⟩ := tx
  cases c with
  | NoCall => simp [update_tx] at h
  | SolCall f args =>
    simp only [update_tx, Except.ok.injEq] at h
    subst h
    simp [update_tx_original_after]

/-- C1 witness: after updating a concrete record with a model that assigns
both the argument variable and the sender variable, the caller's original
holds the updated argument but its own sender and value strings. -/
theorem C1_witness :
    update_tx_original_after
      ⟨Call.SolCall "f" (.cons (.AbiUInt 8 "5") .nil),
        "0x1", "0x2", "0x0", "0x1", "0x1", "0x0", "0xff"⟩
      [("tx0_arg0", 7), ("tx0_sender", 1)] "tx0"
    = ⟨Call.SolCall "f" (.cons (.AbiUInt 8 "7") .nil),
        "0x1", "0x2", "0x0", "0x1", "0x1", "0x0", "0xff"⟩ :=
  C1_update_tx_shares_nested_state
    ⟨Call.SolCall "f" (.cons (.AbiUInt 8 "5") .nil),
      "0x1", "0x2", "0x0", "0x1", "0x1", "0x0", "0xff"⟩
    [("tx0_arg0", 7), ("tx0_sender", 1)] "tx0"
    ⟨Call.SolCall "f" (.cons (.AbiUInt 8 "7") .nil),
      "0x0000000000000000000000000000000000000001",
      "0x2", "0x0", "0x1", "0x1", "0x0", "0xff"⟩
    (by decide)

theorem mem_df_step (g : DataflowGraph) :
    ∀ (seqs : List (List Nat)) (s : List Nat), s ∈ df_step g seqs →
      ∃ t ∈ seqs, s.length = t.length + 1
  | [], s, h => absurd h (by simp [df_step])
  | seq :: rest, s, h => by
    simp only [df_step, List.mem_append] at h
    cases h with
    | inl h1 =>
      rcases List.mem_map.mp h1 with ⟨prev, _hprev, rfl⟩
      exact ⟨seq, List.mem_cons_self seq rest, by simp⟩
    | inr h2 =>
      rcases mem_df_step g rest s h2 with ⟨t, ht, hl⟩
      exact ⟨t, List.mem_cons_of_mem seq ht, hl⟩

theorem step_graph :
    ∀ (n : Nat) (cg : CorpusGenerator),
      (cg.step n).dataflow_graph = cg.dataflow_graph
  | 0, _ => rfl
  | n + 1, cg => step_graph n cg.step_once

theorem step_len :
    ∀ (n : Nat) (cg : CorpusGenerator) (L : Nat),
      (∀ s ∈ cg.current_tx_sequences, s.length = L) →
      ∀ s ∈ (cg.step n).current_tx_sequences, s.length = L + n
  | 0, _, _, h => by simpa using h
  | n + 1, cg, L, h => by
    have h1 : ∀ s ∈ cg.step_once.current_tx_sequences, s.length = L + 1 := by
      intro s hs
      rcases mem_df_step cg.dataflow_graph cg.current_tx_sequences s hs
        with ⟨t, ht, hl⟩
      rw [hl, h t ht]
    intro s hs
    rw [step_len n cg.step_once (L + 1) h1 s hs]
    omega

/-- C2: for every dataflow graph and every n, after `step(n)` on a freshly
initialized generator every sequence in the active set has length exactly
`1 + n` (so all live sequences have equal length), and stepping changes only
the active-sequence component of the generator state (the graph component is
untouched; `step` has no return value in the source and the state transition
is modelled by returning the new state). -/
theorem C2_step_uniform_lengths (g : DataflowGraph) (n : Nat) :
    ((mkCorpusGenerator g).step n).dataflow_graph = g
    ∧ ∀ s ∈ ((mkCorpusGenerator g).step n).current_tx_sequences,
        s.length = 1 + n := by
  constructor
  · exact step_graph n (mkCorpusGenerator g)
  · have hinit :
        ∀ s ∈ (mkCorpusGenerator g).current_tx_sequences, s.length = 1 := by
      intro s hs
      rcases List.mem_map.mp hs with ⟨v, _, rfl⟩
      rfl
    intro s hs
    rw [step_len n (mkCorpusGenerator g) 1 hinit s hs]

/-- C2 witness: on the two-node cyclic graph, a concrete member of the active
set after two rounds has length `1 + 2`. -/
theorem C2_witness :
    [0, 1, 0] ∈ ((mkCorpusGenerator
        ⟨[0, 1], fun v => if v = 0 then [1] else [0]⟩).step
          2).current_tx_sequences
    ∧ ([0, 1, 0] : List Nat).length = 1 + 2 :=
  ⟨by decide,
    (C2_step_uniform_lengths ⟨[0, 1], fun v => if v = 0 then [1] else [0]⟩
      2).2 [0, 1, 0] (by decide)⟩

theorem impacts_seq_no_parents (g : DataflowGraph)
    (h : ∀ v, g.parents v = []) (seq : List Nat) :
    impacts_seq g seq = [] := by
  unfold impacts_seq
  have aux : ∀ (l : List Nat) (acc : List Nat),
      l.foldl (fun acc n => acc ++ g.parents n) acc = acc := by
    intro l
    induction l with
    | nil => intro acc; rfl
    | cons x xs ih =>
      intro acc
      simp only [List.foldl, h x, List.append_nil]
      exact ih acc
  rw [aux]
  rfl

theorem df_step_no_parents (g : DataflowGraph)
    (h : ∀ v, g.parents v = []) :
    ∀ (seqs : List (List Nat)), df_step g seqs = []
  | [] => rfl
  | seq :: rest => by
    simp [df_step, impacts_seq_no_parents g h seq,
      df_step_no_parents g h rest]

/-- C10: on a dataflow graph in which no node has any parent, a single
`step` on a freshly initialized generator empties the active set: a sequence
whose nodes have no parents yields no successor and is dropped. -/
theorem C10_no_parents_empties_active_set (g : DataflowGraph)
    (h : ∀ v, g.parents v = []) :
    ((mkCorpusGenerator g).step 1).current_tx_sequences = [] :=
  df_step_no_parents g h _

/-- C10 witness: a two-node graph with no dependency edges at all has an
empty active set after one round. -/
theorem C10_witness :
    ((mkCorpusGenerator ⟨[0, 1], fun _ => []⟩).step
      1).current_tx_sequences = [] :=
  C10_no_parents_empties_active_set ⟨[0, 1], fun _ => []⟩ fun _ => rfl

theorem store_go_error (m : VarContext) :
    ∀ (l : List Tx) (i : Nat), (∃ tx ∈ l, tx.call = Call.NoCall) →
      ∃ e, store_new_txs_go m i l = .error e
  | [], _, h => absurd h (by simp)
  | t :: ts, i, h => by
    cases hu : update_tx t m ("tx" ++ Nat.repr i) with
    | error e => exact ⟨e, by simp [store_new_txs_go, hu]⟩
    | ok u =>
      rcases h with ⟨tx, hmem, hcall⟩
      rcases List.mem_cons.mp hmem with rfl | hmem'
      · simp [update_tx, hcall] at hu
      · rcases store_go_error m ts (i + 1) ⟨tx, hmem', hcall⟩ with ⟨e, he⟩
        exact ⟨e, by simp [store_new_txs_go, hu, he]⟩

/-- C5: a transaction record carrying the `NoCall` marker makes `update_tx`
raise for every model (the argument-list indexing is unconditional), hence
`store_new_tx_sequence` fails on every corpus record list containing a
no-call record — even though `load_tx` accepts such records and returns early
with an empty call payload. -/
theorem C5_nocall_update_raises (tx : Tx) (m : VarContext) (tn : String)
    (txs : List Tx) (b0 b1 : Nat)
    (h : tx.call = Call.NoCall)
    (hmem : tx ∈ txs)
    (hd1 : py_int_hex tx.delay1 = some b1)
    (hd0 : py_int_hex tx.delay0 = some b0) :
    update_tx tx m tn = .error "no contents in NoCall transaction"
    ∧ (∃ e, store_new_tx_sequence txs m = .error e)
    ∧ load_tx tx = some ⟨none, b1, b0, none, none⟩ := by
  refine ⟨by simp [update_tx, h], ?_, ?_⟩
  · exact store_go_error m txs 0 ⟨tx, hmem, h⟩
  · simp [load_tx, hd1, hd0, h]

/-- C5 witness: a concrete no-call record in a one-record corpus. -/
theorem C5_witness :
    update_tx ⟨Call.NoCall, "0x1", "0x2", "0x0", "0x1", "0x1", "0x0", "0xff"⟩
        [] "tx0" = .error "no contents in NoCall transaction"
    ∧ (∃ e, store_new_tx_sequence
        [⟨Call.NoCall, "0x1", "0x2", "0x0", "0x1", "0x1", "0x0", "0xff"⟩] []
        = .error e)
    ∧ load_tx ⟨Call.NoCall, "0x1", "0x2", "0x0", "0x1", "0x1", "0x0", "0xff"⟩
        = some ⟨none, 255, 0, none, none⟩ :=
  C5_nocall_update_raises
    ⟨Call.NoCall, "0x1", "0x2", "0x0", "0x1", "0x1", "0x0", "0xff"⟩ [] "tx0"
    [⟨Call.NoCall, "0x1", "0x2", "0x0", "0x1", "0x1", "0x0", "0xff"⟩] 0 255
    rfl (by decide) (by decide) (by decide)

theorem avail_loop_eq (ex : String → Bool) (pre suf : String) :
    ∀ (fuel num : Nat),
      avail_loop ex pre suf num fuel
        = ((List.range' num fuel).find?
            (fun k => ! ex (avail_name pre suf k))).getD (num + fuel)
  | 0, num => by simp [avail_loop, List.range']
  | fuel + 1, num => by
    rw [List.range'_succ]
    cases hex : ex (avail_name pre suf num) with
    | true =>
      have harith : num + (fuel + 1) = (num + 1) + fuel := by omega
      simp only [avail_loop, hex, if_pos, List.find?, Bool.not_true, harith]
      exact avail_loop_eq ex pre suf fuel (num + 1)
    | false =>
      simp [avail_loop, hex, List.find?]

/-- C7: `get_available_filename(prefix, suffix)` returns the name
`prefix_num suffix` for the smallest counter below the bound `100000` whose
file does not exist (the first hit of `find?` over the counter range), and
raises a generic resource error when every counter below the bound is taken;
in particular, with `tx_0.txt` .. `tx_4.txt` present it returns
`tx_5.txt`. -/
theorem C7_get_available_filename (ex : String → Bool) (pre suf : String) :
    (get_available_filename ex pre suf
      = match (List.range 100000).find?
            (fun k => ! ex (avail_name pre suf k)) with
        | some k => .ok (avail_name pre suf k)
        | none => .error "Can't find available filename, very odd")
    ∧ get_available_filename
        (fun s => ["corpus/tx_0.txt", "corpus/tx_1.txt", "corpus/tx_2.txt",
          "corpus/tx_3.txt", "corpus/tx_4.txt"].contains s)
        "corpus/tx" ".txt"
      = .ok "corpus/tx_5.txt" := by
  constructor
  · unfold get_available_filename
    rw [avail_loop_eq ex pre suf 100000 0, ← List.range_eq_range']
    cases hf : (List.range 100000).find?
        (fun k => ! ex (avail_name pre suf k)) with
    | none => simp
    | some k =>
      have hk : k < 100000 :=
        List.mem_range.mp (List.mem_of_find?_eq_some hf)
      simp [Option.getD, if_neg (by omega : ¬ 100000 ≤ k)]
  · decide

theorem dropWhile_to_newline (rest : List Char) :
    ∀ (diag : List Char), '\n' ∉ diag →
      (diag ++ '\n' :: rest).dropWhile (fun c => c ≠ '\n') = '\n' :: rest
  | [], _ => by simp [List.dropWhile]
  | c :: cs, h => by
    have hc : c ≠ '\n' := fun he => h (he ▸ List.mem_cons_self c cs)
    have ht : '\n' ∉ cs := fun he => h (List.mem_cons_of_mem c he)
    have hstep :
        (c :: (cs ++ '\n' :: rest)).dropWhile (fun c => decide (c ≠ '\n'))
          = (cs ++ '\n' :: rest).dropWhile (fun c => decide (c ≠ '\n')) := by
      simp [List.dropWhile, hc]
    rw [List.cons_append, hstep]
    exact dropWhile_to_newline rest cs ht

theorem strip_loaded_of_diag (diag rest : List Char)
    (hp : "Loaded total of".data.isPrefixOf diag = true)
    (hnl : '\n' ∉ diag) :
    strip_loaded_line (diag ++ '\n' :: rest) = some rest := by
  unfold strip_loaded_line
  rw [if_pos (isPrefixOf_append_right _ _ _ hp),
    dropWhile_to_newline rest diag hnl]

/-- C6 (amended): `extract_cases_from_json_output` strips a leading
diagnostic line only when it starts with `"Loaded total of"` (any other
leading non-JSON line makes the JSON parse fail instead, see the
counterexample); with such a line present the result is exactly the case
extraction of the remaining report body, and on the spec's example report —
one solved test with transactions `function f, arguments 1 and 2` — the
returned case list is `[["f(1,2)"]]`. -/
theorem C6_loaded_line_stripped (diag rest : List Char)
    (hp : "Loaded total of".data.isPrefixOf diag = true)
    (hnl : '\n' ∉ diag) :
    extract_cases_list (diag ++ '\n' :: rest)
      = (json_loads_list rest).bind cases_of_report
    ∧ extract_cases_from_json_output
        "Loaded total of 500 transactions from /tmp/c4/coverage\n\x7b\"tests\": [\x7b\"status\": \"solved\", \"transactions\": [\x7b\"function\": \"f\", \"arguments\": [\"1\",\"2\"]\x7d]\x7d]\x7d"
      = some [["f(1,2)"]] := by
  constructor
  · unfold extract_cases_list
    rw [strip_loaded_of_diag diag rest hp hnl]
    rfl
  · decide

/-- C6 counterexample: a leading diagnostic line that does not start with
`"Loaded total of"` is not stripped — the parse fails and the extraction
returns an error, instead of the result on the stripped body. -/
theorem C6_counterexample :
    extract_cases_from_json_output "Oops\n\x7b\"tests\": []\x7d" = none
    ∧ extract_cases_from_json_output "\x7b\"tests\": []\x7d" = some [] := by
  constructor <;> decide

/-- C6 witness: a concrete `Loaded total of` line is stripped. -/
theorem C6_witness :
    extract_cases_from_json_output "Loaded total of 7\n\x7b\"tests\": []\x7d"
      = some [] := by
  have h := (C6_loaded_line_stripped "Loaded total of 7".data
    "\x7b\"tests\": []\x7d".data (by decide) (by decide)).1
  show extract_cases_list
    (String.data "Loaded total of 7\n\x7b\"tests\": []\x7d") = some []
  have e : String.data "Loaded total of 7\n\x7b\"tests\": []\x7d"
      = "Loaded total of 7".data ++ '\n' :: "\x7b\"tests\": []\x7d".data := by
    decide
  rw [e, h]
  decide
